import Mathlib

/-!
Shallow embedding of `packages/preferences/src/browser/preferences-tree-widget.ts`
(Theia preferences UI: `PreferencesContainer`, `PreferencesEditorsContainer`,
`PreferencesTreeWidget`).

Conventions of the embedding:
* TypeScript strings are Lean `String`s; a `string | undefined` value is an
  `Option String` (`none` = `undefined`).
* URIs are lists of path segments (`Uri := List String`); `uri.parent` drops the
  last segment and `uri.toString()` joins the segments with a slash.  Only the
  parent/toString structure of `@theia/core`'s `URI` is needed by this module.
* Stateful handlers become pure functions from the relevant state to a pair of
  (list of emitted external effects, new state); the order of the effect list is
  the order in which the TypeScript code issues the calls.
* Services injected from outside this file (workspace service, preference
  providers, editor manager) become explicit records of functions.
-/

namespace TheiaPreferences

/-- `PreferenceScope` from `@theia/core` (`enum PreferenceScope { Default, User,
Workspace, Folder }`; `Default` is the numeric value `0`, hence JS-falsy). -/
inductive PreferenceScope where
  | default
  | user
  | workspace
  | folder
deriving DecidableEq, Repr

/-- A URI, reduced to its path segments.  `parent` drops the last segment,
matching `URI.parent` for the uses in this module. -/
abbrev Uri := List String

/-- `uri.parent`. -/
def uriParent (u : Uri) : Uri := u.dropLast

/-- `uri.toString()`, reduced to joining the segments. -/
def uriToString (u : Uri) : String := String.intercalate "/" u

/-- The slice of `PreferencesEditorWidget` this module reads: the underlying
editor's URI (`editor.uri`), the `scope` tag (possibly still `undefined`), and
the saveable state `saveable.dirty` / `saveable.autoSave === 'on'`. -/
structure PreferencesEditorWidget where
  uri : Uri
  scope : Option PreferenceScope
  dirty : Bool
  autoSave : Bool
deriving DecidableEq, Repr

/-- JS `editor.scope || PreferenceScope.User`: both `undefined` and
`PreferenceScope.Default` (numeric `0`) are falsy. -/
def scopeOrUser : Option PreferenceScope → PreferenceScope
  | none => PreferenceScope.user
  | some PreferenceScope.default => PreferenceScope.user
  | some s => s

/-- The mutable state of `PreferencesContainer` read by the handlers modelled
here: the reconciled `editors` list, the `currentEditor`, and the tracked
`_preferenceScope`. -/
structure PreferencesContainer where
  editors : List PreferencesEditorWidget
  currentEditor : Option PreferencesEditorWidget
  preferenceScope : PreferenceScope
deriving Repr

/-- `get dirty()`: `this.editors.some(editor => editor.saveable.dirty)`. -/
def PreferencesContainer.dirty (c : PreferencesContainer) : Bool :=
  c.editors.any fun editor => editor.dirty

/-- `get autoSave()`: `'on'` (here `true`) iff some tracked editor has autosave on. -/
def PreferencesContainer.autoSave (c : PreferencesContainer) : Bool :=
  c.editors.any fun editor => editor.autoSave

/-- External calls issued by the `onPreferenceSelected` handler. -/
inductive Effect where
  /-- `messageService.warn(msg)` -/
  | warn (msg : String)
  /-- `preferenceService.set(name, value, scope, uri)`; the scope argument is
  `this.currentEditor.scope`, which may still be `undefined`. -/
  | setPreference (name value : String) (scope : Option PreferenceScope) (uri : String)
deriving DecidableEq, Repr

/-- The warning text of line 144 of the source. -/
def unsavedChangesWarning : String := "Preferences editor(s) has/have unsaved changes"

/-- The `onPreferenceSelected` handler wired in `PreferencesContainer.onAfterAttach`
(lines 140-148).  The tree fires with a single-key object `{ property: value }`;
the two components are passed separately here.  Returns the external calls in
issue order. -/
def onPreferenceSelected (c : PreferencesContainer)
    (preferenceName preferenceValue : String) : List Effect :=
  if c.dirty then
    [Effect.warn unsavedChangesWarning]
  else
    match c.currentEditor with
    | some editor =>
        [Effect.setPreference preferenceName preferenceValue editor.scope
          (uriToString editor.uri)]
    | none => []

/-- Steps performed by the `onEditorChanged` handler, in program order:
`saveEditor` is `this.currentEditor.saveable.save()`, the two `set…` steps are
the assignments to `this.preferenceScope` and `this.currentEditor`. -/
inductive ContainerEvent where
  | saveEditor (uri : String)
  | setPreferenceScope (s : PreferenceScope)
  | setCurrentEditor (uri : String)
deriving DecidableEq, Repr

/-- The `onEditorChanged` handler wired in `PreferencesContainer.onAfterAttach`
(lines 157-167): if a current editor exists and its URI differs from the newly
focused editor's URI, it is saved first; then the preference scope is set to
`editor.scope || PreferenceScope.User` (the emitter always fires with a widget,
so the `if (editor)` guard takes its then-branch) and `currentEditor` is set.
Returns the trace of steps in program order together with the new state. -/
def onEditorChanged (c : PreferencesContainer) (editor : PreferencesEditorWidget) :
    List ContainerEvent × PreferencesContainer :=
  let saveSteps :=
    match c.currentEditor with
    | some cur =>
        if uriToString cur.uri ≠ uriToString editor.uri then
          [ContainerEvent.saveEditor (uriToString cur.uri)]
        else []
    | none => []
  let newScope := scopeOrUser editor.scope
  (saveSteps ++
     [ContainerEvent.setPreferenceScope newScope,
      ContainerEvent.setCurrentEditor (uriToString editor.uri)],
   { c with preferenceScope := newScope, currentEditor := some editor })

/-! ### `PreferencesEditorsContainer`: the Folder-scope editor (lines 381-439) -/

/-- External calls issued by the folder-editor methods, in issue order. -/
inductive FolderEffect where
  /-- `fileSystem.createFile(configUri.toString())` -/
  | createFile (uri : Uri)
  /-- `widget.close(); widget.dispose()` in `closeFoldersPreferenceEditorWidget` -/
  | closeWidget (uri : Uri)
  /-- `onFolderPreferenceEditorUriChangedEmitter.fire(uriString)` -/
  | folderUriChanged (uriString : String)
deriving DecidableEq, Repr

def FolderEffect.isFolderUriChanged : FolderEffect → Bool
  | FolderEffect.folderUriChanged _ => true
  | _ => false

def FolderEffect.isCloseWidget : FolderEffect → Bool
  | FolderEffect.closeWidget _ => true
  | _ => false

/-- The services `PreferencesEditorsContainer` consults for its Folder-scope
editor: `workspaceService.tryGetRoots().map(r => r.uri)`,
`workspaceService.saved`, `foldersPreferenceProvider.getConfigUri`,
`foldersPreferenceProvider.getContainingConfigUri`, and
`editorManager.getOrCreateByUri`. -/
structure FoldersEnv where
  rootUris : List String
  saved : Bool
  getConfigUri : Option String → Option Uri
  getContainingConfigUri : Option String → Option Uri
  getOrCreateByUri : Uri → PreferencesEditorWidget

/-- JS `a || b` on `string | undefined` values: `undefined` and `''` are falsy. -/
def jsOrString (a b : Option String) : Option String :=
  match a with
  | some s => if s = "" then b else some s
  | none => b

/-- `getFolderSettingsUri` (lines 430-439): try `getConfigUri`; when absent fall
back to `getContainingConfigUri` and create the backing file. -/
def getFolderSettingsUri (env : FoldersEnv) (folderUri : Option String) :
    Option Uri × List FolderEffect :=
  match env.getConfigUri folderUri with
  | some configUri => (some configUri, [])
  | none =>
      match env.getContainingConfigUri folderUri with
      | some configUri => (some configUri, [FolderEffect.createFile configUri])
      | none => (none, [])

/-- `getFoldersPreferencesEditor` (lines 410-428): only in a saved workspace;
resolves the settings URI, obtains the editor widget for it and tags it with
`PreferenceScope.Folder`.  Title decoration (label, caption, clickable text) is
presentation-only and not modelled. -/
def getFoldersPreferencesEditor (env : FoldersEnv) (folderUri : Option String) :
    Option PreferencesEditorWidget × List FolderEffect :=
  if env.saved then
    match getFolderSettingsUri env folderUri with
    | (some settingsUri, effects) =>
        (some { env.getOrCreateByUri settingsUri with scope := some PreferenceScope.folder },
         effects)
    | (none, effects) => (none, effects)
  else (none, [])

/-- `widget.editor.uri.parent.parent.toString()`: the folder URI displayed by a
Folder-scope editor (its settings file's grandparent directory). -/
def folderOfWidget (w : PreferencesEditorWidget) : String :=
  uriToString (uriParent (uriParent w.uri))

/-- `get activeFolder()` (lines 381-385). -/
def activeFolder (st : Option PreferencesEditorWidget) : Option String :=
  match st with
  | some w => some (folderOfWidget w)
  | none => none

/-- `closeFoldersPreferenceEditorWidget` (lines 402-408), acting on the
`foldersPreferenceEditorWidget` field. -/
def closeFoldersPreferenceEditorWidget (st : Option PreferencesEditorWidget) :
    Option PreferencesEditorWidget × List FolderEffect :=
  match st with
  | some w => (none, [FolderEffect.closeWidget w.uri])
  | none => (none, [])

/-- The replacement guard of lines 391-393: the branch runs when no Folder
editor is open, or the open one displays a different folder than `newFolderUri`
(a `string !== string | undefined` comparison). -/
def foldersReplaceCond (st : Option PreferencesEditorWidget)
    (newFolderUri : Option String) : Bool :=
  match st with
  | none => true
  | some w => some (folderOfWidget w) ≠ newFolderUri

/-- `refreshFoldersPreferencesEditorWidget` (lines 387-400).  State is the
`foldersPreferenceEditorWidget` field; returns the new state and the external
calls in issue order (the `addWidget` dock insertion is layout-only and not
modelled). -/
def refreshFoldersPreferencesEditorWidget (env : FoldersEnv)
    (st : Option PreferencesEditorWidget) (currentFolderUri : Option String) :
    Option PreferencesEditorWidget × List FolderEffect :=
  let newFolderUri := jsOrString currentFolderUri env.rootUris.head?
  match getFoldersPreferencesEditor env newFolderUri with
  | (some newWidget, effects) =>
      if foldersReplaceCond st newFolderUri then
        (some newWidget,
         effects ++ (closeFoldersPreferenceEditorWidget st).2 ++
           [FolderEffect.folderUriChanged (uriToString newWidget.uri)])
      else (st, effects)
  | (none, effects) => (st, effects)

/-- `PreferencesContainer.refreshFoldersPreferencesEditor` (lines 240-248):
with no roots, close the Folder editor; otherwise, when no root matches the
currently displayed folder, refresh with the first root's URI. -/
def refreshFoldersPreferencesEditor (env : FoldersEnv)
    (st : Option PreferencesEditorWidget) :
    Option PreferencesEditorWidget × List FolderEffect :=
  if env.rootUris.length = 0 then
    closeFoldersPreferenceEditorWidget st
  else if ¬ (env.rootUris.any fun r => some r = activeFolder st) then
    refreshFoldersPreferencesEditorWidget env st env.rootUris.head?
  else (st, [])

/-! ### `PreferencesTreeWidget.initializeModel` (lines 555-620) -/

/-- Split a character list at every dot; segments are returned in order and
dots are dropped (`acc` holds the current segment, reversed). -/
def splitOnDotAux : List Char → List Char → List (List Char)
  | [], acc => [acc.reverse]
  | c :: cs, acc =>
      if c = '.' then acc.reverse :: splitOnDotAux cs []
      else splitOnDotAux cs (c :: acc)

/-- `property.split('.')`: e.g. `"a.b" ↦ ["a", "b"]`, `"ab" ↦ ["ab"]`,
`"a." ↦ ["a", ""]`, `"" ↦ [""]`. -/
def splitOnDot (s : String) : List String :=
  (splitOnDotAux s.data []).map String.mk

/-- `property.split('.').length > 1` / `property.indexOf('.') >= 0`: the key
contains at least one dot. -/
def hasDot (s : String) : Bool := decide ((splitOnDot s).length > 1)

/-- `property.split('.', 1)[0]`: everything before the first dot, or the whole
string when there is no dot. -/
def beforeFirstDot (s : String) : String := (splitOnDot s).headD ""

/-- `property.substring(0, property.indexOf('.'))`: like `beforeFirstDot`, but
the empty string when there is no dot (`indexOf` returns `-1` and `substring`
clamps it to `0`). -/
def substringToFirstDot (s : String) : String :=
  if hasDot s then beforeFirstDot s else ""

/-- `property.substring(property.indexOf('.') + 1)`: everything after the first
dot, or the whole string when there is no dot (`-1 + 1 = 0`). -/
def afterFirstDot (s : String) : String :=
  match splitOnDot s with
  | [] => s
  | _first :: rest => if rest.isEmpty then s else String.intercalate "." rest

/-- JS `Set.prototype.add` on a set represented as its insertion-ordered,
duplicate-free element list. -/
def setAdd (s : List String) (x : String) : List String :=
  if x ∈ s then s else s ++ [x]

/-- One iteration of the group-name collection loop (lines 557-565): for a
non-empty key containing a dot, add
`property.substring(0, property.indexOf('.'))` to the set. -/
def collectStep (acc : List String) (property : String) : List String :=
  if property ≠ "" then
    if hasDot property then setAdd acc (substringToFirstDot property) else acc
  else acc

/-- The group-name collection loop of lines 557-565, starting from the current
contents of the `preferencesGroupNames` set field (which the source never
clears). -/
def collectGroupNames (groupNames : List String) (props : List String) : List String :=
  props.foldl collectStep groupNames

/-- Characters treated as ignorable punctuation by the comparison model.
Covers ASCII punctuation relevant to preference keys. -/
def isPunctChar (c : Char) : Bool :=
  c = '-' || c = '_' || c = '.' || c = ',' || c = ';' || c = ':' ||
  c = '!' || c = '?' || c = '/' || c = '(' || c = ')'

/-- The characters of a string with punctuation removed. -/
def stripPunct (s : String) : List Char := s.data.filter fun c => ¬ isPunctChar c

/-- Lexicographic three-way comparison of character lists by code point. -/
def charListCompare : List Char → List Char → Ordering
  | [], [] => Ordering.eq
  | [], _ :: _ => Ordering.lt
  | _ :: _, [] => Ordering.gt
  | a :: as, b :: bs =>
      if a < b then Ordering.lt
      else if b < a then Ordering.gt
      else charListCompare as bs

/-- Modelled from the spec: `PreferencesTreeWidget.sort` (lines 633-635) calls
`a.localeCompare(b, undefined, ignorePunctuation)`, whose host-locale collation
table is not part of this repository.  The spec describes it as a locale-aware,
punctuation-insensitive comparison; it is modelled as a fixed collation that
strips punctuation and then compares by code point.  Like the real comparison,
it returns `eq` for distinct strings that differ only in punctuation. -/
def localeCompare (a b : String) : Ordering :=
  charListCompare (stripPunct a) (stripPunct b)

/-- Insert into a sorted list, after every element that does not compare
greater than the inserted one. -/
def insertOrdered (cmp : String → String → Ordering) (x : String) :
    List String → List String
  | [] => [x]
  | y :: ys =>
      if cmp x y = Ordering.gt then y :: insertOrdered cmp x ys
      else x :: y :: ys

/-- `Array.prototype.sort(comparator)`: since ES2019 the sort is stable, so for
a consistent comparator it is observationally an insertion sort; elements that
compare equal keep their original relative order. -/
def sortBy (cmp : String → String → Ordering) : List String → List String
  | [] => []
  | x :: xs => insertOrdered cmp x (sortBy cmp xs)

/-- A leaf node built in lines 605-615: `id` is the preference key, `name` the
key with its leading group segment removed. -/
structure TreeLeaf where
  id : String
  name : String
deriving DecidableEq, Repr

/-- A group node built in lines 594-616. -/
structure TreeGroup where
  id : String
  name : String
  children : List TreeLeaf
deriving DecidableEq, Repr

/-- The group label of line 597:
`group.toLocaleUpperCase().substring(0, 1) + group.substring(1) + ' (' + count + ')'`
(locale uppercasing modelled as ASCII `Char.toUpper`). -/
def groupLabel (group : String) (count : Nat) : String :=
  String.mk ((group.data.map Char.toUpper).take 1) ++ String.mk (group.data.drop 1) ++
    " (" ++ toString count ++ ")"

/-- The member-collection loop of lines 585-592: keys whose part before the
first dot equals the group name and which are not configuration section names
(`preferenceConfigs.isSectionName`, modelled as membership in `sectionNames`). -/
def groupProperties (props sectionNames : List String) (group : String) : List String :=
  props.filter fun property =>
    beforeFirstDot property = group ∧ property ∉ sectionNames

/-- Lines 594-616: one group node; member properties are sorted and turned into
leaf nodes, the label carries the member count. -/
def buildGroupNode (props sectionNames : List String) (group : String) : TreeGroup :=
  let properties := groupProperties props sectionNames group
  { id := group ++ "-id"
    name := groupLabel group properties.length
    children :=
      (sortBy localeCompare properties).map fun property =>
        { id := property, name := afterFirstDot property } }

/-- The preference keys listed under a group node (the leaf `id`s are the keys
themselves, line 607). -/
def childIds (g : TreeGroup) : List String := g.children.map fun leaf => leaf.id

/-- `initializeModel` (lines 555-620).  `groupNames` is the current contents of
the instance field `preferencesGroupNames` (never cleared by the source);
`props` are the keys of `getCombinedSchema().properties` in enumeration order;
`sectionNames` models `preferenceConfigs`.  Returns the updated
`preferencesGroupNames` set and the group nodes attached under the root, in
display order. -/
def initializeModel (groupNames props sectionNames : List String) :
    List String × List TreeGroup :=
  let newGroupNames := collectGroupNames groupNames props
  let sortedNames := sortBy localeCompare newGroupNames
  (newGroupNames, sortedNames.map (buildGroupNode props sectionNames))

/-- A sample tracked editor used to instantiate the container theorems. -/
def sampleEditor (isDirty : Bool) : PreferencesEditorWidget :=
  { uri := ["home", ".theia", "settings.json"]
    scope := some PreferenceScope.user
    dirty := isDirty
    autoSave := false }

/-- A second sample editor, with a different URI. -/
def sampleEditorB (isDirty : Bool) : PreferencesEditorWidget :=
  { uri := ["workspace", ".theia", "settings.json"]
    scope := some PreferenceScope.workspace
    dirty := isDirty
    autoSave := false }

/-- A concrete folder environment: one saved root whose settings file resolves
directly (no creation needed). -/
def sampleFoldersEnv : FoldersEnv :=
  { rootUris := ["file:///projects/alpha"]
    saved := true
    getConfigUri := fun u =>
      if u = some "file:///projects/alpha" then
        some ["file:///projects/alpha", ".theia", "settings.json"]
      else none
    getContainingConfigUri := fun _ => none
    getOrCreateByUri := fun u =>
      { uri := u, scope := none, dirty := false, autoSave := false } }

/-- The same environment after the workspace roots changed to the empty list. -/
def sampleEmptyRootsEnv : FoldersEnv :=
  { sampleFoldersEnv with rootUris := [] }

/-- The Folder-scope editor widget open on `sampleFoldersEnv`'s root. -/
def sampleFolderWidget : PreferencesEditorWidget :=
  { uri := ["file:///projects/alpha", ".theia", "settings.json"]
    scope := some PreferenceScope.folder
    dirty := false
    autoSave := false }

/-!
## Theorems
-/

/-- The replacement guard, spelled as the claim does. -/
theorem foldersReplaceCond_iff (st : Option PreferencesEditorWidget)
    (newFolderUri : Option String) :
    foldersReplaceCond st newFolderUri = true ↔
      (st = none ∨ ∃ o, st = some o ∧ some (folderOfWidget o) ≠ newFolderUri) := by
  cases st with
  | none => simp [foldersReplaceCond]
  | some o => simp [foldersReplaceCond]

/-- `getFoldersPreferencesEditor` may create the backing settings file, but it
never fires the folder-uri-changed event and never closes a widget. -/
theorem getFoldersPreferencesEditor_no_event (env : FoldersEnv) (u : Option String) :
    (getFoldersPreferencesEditor env u).2.countP FolderEffect.isFolderUriChanged = 0 ∧
    (getFoldersPreferencesEditor env u).2.countP FolderEffect.isCloseWidget = 0 := by
  by_cases hs : env.saved
  · cases hc : env.getConfigUri u with
    | some cu =>
        simp [getFoldersPreferencesEditor, getFolderSettingsUri, hs, hc]
    | none =>
        cases hcc : env.getContainingConfigUri u with
        | some ccu =>
            simp [getFoldersPreferencesEditor, getFolderSettingsUri, hs, hc, hcc,
              FolderEffect.isFolderUriChanged, FolderEffect.isCloseWidget]
        | none =>
            simp [getFoldersPreferencesEditor, getFolderSettingsUri, hs, hc, hcc]
  · simp [getFoldersPreferencesEditor, hs]

/-- Closing the folder editor emits no folder-uri-changed event. -/
theorem closeFolders_no_uri_event (st : Option PreferencesEditorWidget) :
    (closeFoldersPreferenceEditorWidget st).2.countP FolderEffect.isFolderUriChanged = 0 := by
  cases st <;>
    simp [closeFoldersPreferenceEditorWidget, FolderEffect.isFolderUriChanged]

/-- C7: `refreshFoldersPreferencesEditorWidget` replaces the Folder editor and
fires exactly one folder-uri-changed event precisely when a new widget could be
created and either no Folder editor is open or the open one targets a different
folder URI; when the target equals the open folder, the editor is left
unchanged, not closed, and no event is fired. -/
theorem C7_folder_editor_replaced_iff (env : FoldersEnv)
    (st : Option PreferencesEditorWidget) (cur : Option String) :
    ((refreshFoldersPreferencesEditorWidget env st cur).2.countP
        FolderEffect.isFolderUriChanged = 1 ↔
      ((getFoldersPreferencesEditor env (jsOrString cur env.rootUris.head?)).1.isSome = true ∧
       (st = none ∨ ∃ o, st = some o ∧
          some (folderOfWidget o) ≠ jsOrString cur env.rootUris.head?))) ∧
    (∀ w, (getFoldersPreferencesEditor env (jsOrString cur env.rootUris.head?)).1 = some w →
      (st = none ∨ ∃ o, st = some o ∧
         some (folderOfWidget o) ≠ jsOrString cur env.rootUris.head?) →
      (refreshFoldersPreferencesEditorWidget env st cur).1 = some w) ∧
    (∀ o, st = some o →
      some (folderOfWidget o) = jsOrString cur env.rootUris.head? →
      (refreshFoldersPreferencesEditorWidget env st cur).1 = st ∧
      (refreshFoldersPreferencesEditorWidget env st cur).2.countP
        FolderEffect.isFolderUriChanged = 0 ∧
      (refreshFoldersPreferencesEditorWidget env st cur).2.countP
        FolderEffect.isCloseWidget = 0) := by
  have hev := getFoldersPreferencesEditor_no_event env (jsOrString cur env.rootUris.head?)
  rcases hg : getFoldersPreferencesEditor env (jsOrString cur env.rootUris.head?)
    with ⟨ow, effs⟩
  rw [hg] at hev
  have hrw : refreshFoldersPreferencesEditorWidget env st cur =
      match (ow, effs) with
      | (some newWidget, effects) =>
          if foldersReplaceCond st (jsOrString cur env.rootUris.head?) then
            (some newWidget,
             effects ++ (closeFoldersPreferenceEditorWidget st).2 ++
               [FolderEffect.folderUriChanged (uriToString newWidget.uri)])
          else (st, effects)
      | (none, effects) => (st, effects) := by
    unfold refreshFoldersPreferencesEditorWidget
    simp only [hg]
  cases ow with
  | none =>
      refine ⟨?_, ?_, ?_⟩
      · simp only [hrw, hg]
        simp [hev.1]
      · intro w hw
        simp at hw
      · intro o ho he
        simp only [hrw]
        simp [hev.1, hev.2]
  | some w =>
      by_cases hc : foldersReplaceCond st (jsOrString cur env.rootUris.head?) = true
      · have hcp := (foldersReplaceCond_iff st (jsOrString cur env.rootUris.head?)).1 hc
        refine ⟨?_, ?_, ?_⟩
        · simp only [hrw, hg, hc]
          simp [List.countP_append, hev.1, closeFolders_no_uri_event,
            FolderEffect.isFolderUriChanged, hcp]
        · intro w' hw' _
          simp only [hrw, hc]
          simp only [Option.some.injEq] at hw'
          simp [hw', if_pos]
        · intro o ho he
          rcases hcp with h0 | ⟨o', ho', hne⟩
          · rw [ho] at h0; cases h0
          · rw [ho] at ho'
            cases ho'
            exact absurd he hne
      · have hcp := (foldersReplaceCond_iff st (jsOrString cur env.rootUris.head?)).not.1
          (by simp [hc])
        push_neg at hcp
        refine ⟨?_, ?_, ?_⟩
        · simp only [hrw, hg]
          rw [if_neg (by simp [hc])]
          constructor
          · intro h1
            rw [hev.1] at h1
            cases h1
          · rintro ⟨_, h0 | ⟨o, ho, hne⟩⟩
            · exact absurd h0 hcp.1
            · exact absurd hne (by simpa using hcp.2 o ho)
        · intro w' hw' hor
          rcases hor with h0 | ⟨o, ho, hne⟩
          · exact absurd h0 hcp.1
          · exact absurd hne (by simpa using hcp.2 o ho)
        · intro o ho he
          simp only [hrw]
          rw [if_neg (by simp [hc])]
          exact ⟨rfl, hev.1, hev.2⟩

/-- Witness for C7: refreshing with the folder already displayed leaves the
editor unchanged and fires nothing. -/
theorem C7_folder_editor_replaced_iff_witness :
    (refreshFoldersPreferencesEditorWidget sampleFoldersEnv (some sampleFolderWidget)
        (some "file:///projects/alpha")).1 = some sampleFolderWidget ∧
    (refreshFoldersPreferencesEditorWidget sampleFoldersEnv (some sampleFolderWidget)
        (some "file:///projects/alpha")).2.countP FolderEffect.isFolderUriChanged = 0 ∧
    (refreshFoldersPreferencesEditorWidget sampleFoldersEnv (some sampleFolderWidget)
        (some "file:///projects/alpha")).2.countP FolderEffect.isCloseWidget = 0 :=
  (C7_folder_editor_replaced_iff sampleFoldersEnv (some sampleFolderWidget)
      (some "file:///projects/alpha")).2.2 sampleFolderWidget rfl (by decide)

/-- C8: with roots changed from `[]` to `[folderA]` and no Folder editor open,
the refresh opens exactly one Folder-scope editor targeting `folderA` (one
folder-uri-changed event, state holding that single widget); with roots changed
to `[]`, the open Folder editor is closed. -/
theorem C8_roots_change_opens_and_closes (env : FoldersEnv) (fA : String) (u : Uri)
    (hroots : env.rootUris = [fA])
    (hsaved : env.saved = true)
    (hconf : env.getConfigUri (some fA) = some u)
    (hwidget : (env.getOrCreateByUri u).uri = u)
    (hfolder : uriToString (uriParent (uriParent u)) = fA) :
    ((refreshFoldersPreferencesEditor env none).1 =
        some { env.getOrCreateByUri u with scope := some PreferenceScope.folder } ∧
      activeFolder (refreshFoldersPreferencesEditor env none).1 = some fA ∧
      (refreshFoldersPreferencesEditor env none).2 =
        [FolderEffect.folderUriChanged (uriToString u)]) ∧
    (∀ env0 : FoldersEnv, env0.rootUris = [] →
      ∀ o : PreferencesEditorWidget,
        refreshFoldersPreferencesEditor env0 (some o) =
          (none, [FolderEffect.closeWidget o.uri])) := by
  constructor
  · have hjs : jsOrString (some fA) (env.rootUris.head?) = some fA := by
      rw [hroots]
      by_cases h0 : fA = "" <;> simp [jsOrString, h0]
    have hget : getFoldersPreferencesEditor env (some fA) =
        (some { env.getOrCreateByUri u with scope := some PreferenceScope.folder }, []) := by
      simp [getFoldersPreferencesEditor, getFolderSettingsUri, hsaved, hconf]
    have hmain : refreshFoldersPreferencesEditor env none =
        refreshFoldersPreferencesEditorWidget env none env.rootUris.head? := by
      unfold refreshFoldersPreferencesEditor
      rw [if_neg (by rw [hroots]; simp), if_pos]
      simp [activeFolder, hroots]
    have hwidg : refreshFoldersPreferencesEditorWidget env none env.rootUris.head? =
        (some { env.getOrCreateByUri u with scope := some PreferenceScope.folder },
         [FolderEffect.folderUriChanged (uriToString u)]) := by
      unfold refreshFoldersPreferencesEditorWidget
      rw [hroots]
      show (match getFoldersPreferencesEditor env (jsOrString (some fA) ([fA] : List String).head?) with
        | (some newWidget, effects) =>
            if foldersReplaceCond none (jsOrString (some fA) ([fA] : List String).head?) then
              (some newWidget,
               effects ++ (closeFoldersPreferenceEditorWidget none).2 ++
                 [FolderEffect.folderUriChanged (uriToString newWidget.uri)])
            else (none, effects)
        | (none, effects) => (none, effects)) = _
      rw [show jsOrString (some fA) ([fA] : List String).head? = some fA by
        have := hjs; rwa [hroots] at this]
      rw [hget]
      simp [foldersReplaceCond, closeFoldersPreferenceEditorWidget, hwidget]
    rw [hmain, hwidg]
    refine ⟨rfl, ?_, rfl⟩
    simp [activeFolder, folderOfWidget, hwidget, hfolder]
  · intro env0 h0 o
    unfold refreshFoldersPreferencesEditor
    rw [if_pos (by rw [h0]; rfl)]
    rfl

/-- Witness for C8 on the sample environments. -/
theorem C8_roots_change_opens_and_closes_witness :
    ((refreshFoldersPreferencesEditor sampleFoldersEnv none).1 =
        some { sampleFoldersEnv.getOrCreateByUri
                 ["file:///projects/alpha", ".theia", "settings.json"] with
               scope := some PreferenceScope.folder } ∧
      activeFolder (refreshFoldersPreferencesEditor sampleFoldersEnv none).1 =
        some "file:///projects/alpha" ∧
      (refreshFoldersPreferencesEditor sampleFoldersEnv none).2 =
        [FolderEffect.folderUriChanged
          (uriToString ["file:///projects/alpha", ".theia", "settings.json"])]) ∧
    refreshFoldersPreferencesEditor sampleEmptyRootsEnv (some sampleFolderWidget) =
      (none, [FolderEffect.closeWidget sampleFolderWidget.uri]) := by
  have h := C8_roots_change_opens_and_closes sampleFoldersEnv "file:///projects/alpha"
    ["file:///projects/alpha", ".theia", "settings.json"]
    rfl rfl (by decide) rfl (by decide)
  exact ⟨h.1, h.2 sampleEmptyRootsEnv rfl sampleFolderWidget⟩

/-- C2: the container's aggregate `dirty` is true iff some tracked editor's
saveable is dirty; in particular (false, false, true) aggregates to true, and
all-false aggregates to false. -/
theorem C2_dirty_aggregates (c : PreferencesContainer) :
    (c.dirty = true ↔ ∃ e ∈ c.editors, e.dirty = true) ∧
    (PreferencesContainer.dirty
      { editors := [sampleEditor false, sampleEditorB false, sampleEditor true]
        currentEditor := none
        preferenceScope := PreferenceScope.user } = true) ∧
    (PreferencesContainer.dirty
      { editors := [sampleEditor false, sampleEditorB false, sampleEditor false]
        currentEditor := none
        preferenceScope := PreferenceScope.user } = false) := by
  refine ⟨?_, by decide, by decide⟩
  simp [PreferencesContainer.dirty, List.any_eq_true]

/-- C1: on a preference-selected event, if any tracked editor is dirty the
handler issues exactly one warning and no write; if none is dirty and a current
editor exists it issues exactly one write of the chosen value at the current
editor's scope and URI. -/
theorem C1_selected_write_or_warn (c : PreferencesContainer) (name value : String) :
    (c.dirty = true →
      onPreferenceSelected c name value = [Effect.warn unsavedChangesWarning]) ∧
    (c.dirty = false → ∀ e, c.currentEditor = some e →
      onPreferenceSelected c name value =
        [Effect.setPreference name value e.scope (uriToString e.uri)]) := by
  constructor
  · intro h
    simp [onPreferenceSelected, h]
  · intro h e he
    simp [onPreferenceSelected, h, he]

/-- Witness for C1 at concrete containers: a dirty one and a clean one. -/
theorem C1_selected_write_or_warn_witness :
    onPreferenceSelected
      { editors := [sampleEditor true]
        currentEditor := some (sampleEditorB false)
        preferenceScope := PreferenceScope.user } "editor.fontSize" "14"
      = [Effect.warn unsavedChangesWarning] ∧
    onPreferenceSelected
      { editors := [sampleEditor false]
        currentEditor := some (sampleEditorB false)
        preferenceScope := PreferenceScope.user } "editor.fontSize" "14"
      = [Effect.setPreference "editor.fontSize" "14" (sampleEditorB false).scope
          (uriToString (sampleEditorB false).uri)] :=
  ⟨(C1_selected_write_or_warn _ "editor.fontSize" "14").1 (by decide),
   (C1_selected_write_or_warn _ "editor.fontSize" "14").2 (by decide) _ rfl⟩

/-- C10: if no tracked editor is dirty and there is no current editor, a
preference-selected event is silently dropped: no write, no warning. -/
theorem C10_selected_dropped_without_editor (c : PreferencesContainer)
    (name value : String) (hclean : c.dirty = false)
    (hnone : c.currentEditor = none) :
    onPreferenceSelected c name value = [] := by
  simp [onPreferenceSelected, hclean, hnone]

/-- Witness for C10: a container with one clean editor and no current editor. -/
theorem C10_selected_dropped_without_editor_witness :
    onPreferenceSelected
      { editors := [sampleEditor false]
        currentEditor := none
        preferenceScope := PreferenceScope.user } "editor.fontSize" "14" = [] :=
  C10_selected_dropped_without_editor _ "editor.fontSize" "14" (by decide) rfl

/-- C3: on an editor-changed event, when the previously focused editor differs
from the newly focused one, the handler's step trace saves the previous editor
strictly before the preference-scope and current-editor updates, and the new
state tracks the new editor and its scope. -/
theorem C3_save_previous_before_switch (c : PreferencesContainer)
    (editor prev : PreferencesEditorWidget)
    (hcur : c.currentEditor = some prev)
    (hne : uriToString prev.uri ≠ uriToString editor.uri) :
    (onEditorChanged c editor).1 =
      [ContainerEvent.saveEditor (uriToString prev.uri),
       ContainerEvent.setPreferenceScope (scopeOrUser editor.scope),
       ContainerEvent.setCurrentEditor (uriToString editor.uri)] ∧
    (onEditorChanged c editor).2.currentEditor = some editor ∧
    (onEditorChanged c editor).2.preferenceScope = scopeOrUser editor.scope := by
  refine ⟨?_, by simp [onEditorChanged], by simp [onEditorChanged]⟩
  simp [onEditorChanged, hcur, hne]

/-- Witness for C3: switching from a dirty User editor to a Workspace editor. -/
theorem C3_save_previous_before_switch_witness :
    (onEditorChanged
      { editors := [sampleEditor true, sampleEditorB false]
        currentEditor := some (sampleEditor true)
        preferenceScope := PreferenceScope.user } (sampleEditorB false)).1 =
      [ContainerEvent.saveEditor (uriToString (sampleEditor true).uri),
       ContainerEvent.setPreferenceScope (scopeOrUser (sampleEditorB false).scope),
       ContainerEvent.setCurrentEditor (uriToString (sampleEditorB false).uri)] ∧
    (onEditorChanged
      { editors := [sampleEditor true, sampleEditorB false]
        currentEditor := some (sampleEditor true)
        preferenceScope := PreferenceScope.user } (sampleEditorB false)).2.currentEditor
      = some (sampleEditorB false) ∧
    (onEditorChanged
      { editors := [sampleEditor true, sampleEditorB false]
        currentEditor := some (sampleEditor true)
        preferenceScope := PreferenceScope.user } (sampleEditorB false)).2.preferenceScope
      = scopeOrUser (sampleEditorB false).scope :=
  C3_save_previous_before_switch _ (sampleEditorB false) (sampleEditor true) rfl (by decide)

/-! ### Lemmas about the string helpers and the comparator -/

theorem hasDot_ne_empty {p : String} (h : hasDot p = true) : p ≠ "" := by
  intro he
  rw [he] at h
  exact absurd h (by decide)

theorem substringToFirstDot_of_hasDot {p : String} (h : hasDot p = true) :
    substringToFirstDot p = beforeFirstDot p := by
  simp [substringToFirstDot, h]

theorem charListCompare_swap (a : List Char) :
    ∀ b : List Char, charListCompare a b = (charListCompare b a).swap := by
  induction a with
  | nil => intro b; cases b <;> rfl
  | cons x xs ih =>
      intro b
      cases b with
      | nil => rfl
      | cons y ys =>
          simp only [charListCompare]
          by_cases hxy : x < y
          · have hyx : ¬ y < x := lt_asymm hxy
            simp [hxy, hyx, Ordering.swap]
          · by_cases hyx : y < x
            · simp [hxy, hyx, Ordering.swap]
            · simp [hxy, hyx, ih ys]

theorem charListCompare_trans_notGt (a : List Char) :
    ∀ b c : List Char, charListCompare a b ≠ Ordering.gt →
      charListCompare b c ≠ Ordering.gt → charListCompare a c ≠ Ordering.gt := by
  induction a with
  | nil => intro b c _ _; cases c <;> simp [charListCompare]
  | cons x xs ih =>
      intro b c h1 h2
      cases b with
      | nil => simp [charListCompare] at h1
      | cons y ys =>
          cases c with
          | nil => simp [charListCompare] at h2
          | cons z zs =>
              simp only [charListCompare] at h1 h2 ⊢
              by_cases hxy : x < y
              · by_cases hyz : y < z
                · simp [lt_trans hxy hyz]
                · by_cases hzy : z < y
                  · rw [if_neg hyz, if_pos hzy] at h2
                    exact absurd rfl h2
                  · have : y = z := le_antisymm (le_of_not_lt hzy) (le_of_not_lt hyz)
                    subst this
                    simp [hxy]
              · by_cases hyx : y < x
                · rw [if_neg hxy, if_pos hyx] at h1
                  exact absurd rfl h1
                · have : x = y := le_antisymm (le_of_not_lt hyx) (le_of_not_lt hxy)
                  subst this
                  rw [if_neg (lt_irrefl x), if_neg (lt_irrefl x)] at h1
                  by_cases hxz : x < z
                  · simp [hxz]
                  · by_cases hzx : z < x
                    · rw [if_neg hxz, if_pos hzx] at h2
                      exact absurd rfl h2
                    · rw [if_neg hxz, if_neg hzx] at h2 ⊢
                      exact ih ys zs h1 h2

theorem localeCompare_swap (a b : String) :
    localeCompare a b = (localeCompare b a).swap :=
  charListCompare_swap _ _

theorem localeCompare_trans_notGt {a b c : String}
    (h1 : localeCompare a b ≠ Ordering.gt) (h2 : localeCompare b c ≠ Ordering.gt) :
    localeCompare a c ≠ Ordering.gt :=
  charListCompare_trans_notGt _ _ _ h1 h2

/-- A comparator that is not-`gt` in both directions returns `eq` (given the
swap law). -/
theorem eq_of_notGt_notGt {cmp : String → String → Ordering}
    (hswap : ∀ a b, cmp a b = (cmp b a).swap) {a b : String}
    (h1 : cmp a b ≠ Ordering.gt) (h2 : cmp b a ≠ Ordering.gt) :
    cmp a b = Ordering.eq := by
  rcases ho : cmp a b with _ | _ | _
  · rw [hswap a b] at ho
    rcases ho2 : cmp b a with _ | _ | _ <;> rw [ho2] at ho <;> simp [Ordering.swap] at ho
    exact absurd ho2 h2
  · rfl
  · exact absurd ho h1

/-! ### Lemmas about the group-name set and the sort -/

theorem mem_setAdd {s : List String} {x y : String} :
    y ∈ setAdd s x ↔ y ∈ s ∨ y = x := by
  unfold setAdd
  by_cases h : x ∈ s
  · rw [if_pos h]
    constructor
    · exact Or.inl
    · rintro (hy | rfl)
      · exact hy
      · exact h
  · rw [if_neg h]
    simp

theorem nodup_setAdd {s : List String} (x : String) (h : s.Nodup) :
    (setAdd s x).Nodup := by
  unfold setAdd
  by_cases hx : x ∈ s
  · rwa [if_pos hx]
  · rw [if_neg hx]
    rw [List.nodup_append]
    refine ⟨h, List.nodup_singleton x, ?_⟩
    intro a ha hax
    rw [List.mem_singleton] at hax
    subst hax
    exact hx ha

theorem mem_collectStep {acc : List String} {p y : String} :
    y ∈ collectStep acc p ↔
      y ∈ acc ∨ (p ≠ "" ∧ hasDot p = true ∧ substringToFirstDot p = y) := by
  unfold collectStep
  by_cases hp : p = ""
  · simp [hp]
  · rw [if_pos hp]
    by_cases hd : hasDot p
    · rw [if_pos hd, mem_setAdd]
      constructor
      · rintro (hy | rfl)
        · exact Or.inl hy
        · exact Or.inr ⟨hp, hd, rfl⟩
      · rintro (hy | ⟨_, _, rfl⟩)
        · exact Or.inl hy
        · exact Or.inr rfl
    · simp [hd, hp]

theorem nodup_collectStep {acc : List String} (p : String) (h : acc.Nodup) :
    (collectStep acc p).Nodup := by
  unfold collectStep
  split
  · split
    · exact nodup_setAdd _ h
    · exact h
  · exact h

theorem mem_collectGroupNames (props : List String) :
    ∀ (init : List String) (y : String),
      y ∈ collectGroupNames init props ↔
        y ∈ init ∨ ∃ p ∈ props, p ≠ "" ∧ hasDot p = true ∧ substringToFirstDot p = y := by
  induction props with
  | nil => intro init y; simp [collectGroupNames]
  | cons p ps ih =>
      intro init y
      unfold collectGroupNames at *
      rw [List.foldl_cons, ih (collectStep init p), mem_collectStep]
      simp only [List.mem_cons]
      constructor
      · rintro ((hy | hcond) | ⟨q, hq, hc⟩)
        · exact Or.inl hy
        · exact Or.inr ⟨p, Or.inl rfl, hcond⟩
        · exact Or.inr ⟨q, Or.inr hq, hc⟩
      · rintro (hy | ⟨q, hq | hq, hc⟩)
        · exact Or.inl (Or.inl hy)
        · exact Or.inl (Or.inr (hq ▸ hc))
        · exact Or.inr ⟨q, hq, hc⟩

theorem nodup_collectGroupNames (props : List String) :
    ∀ init : List String, init.Nodup → (collectGroupNames init props).Nodup := by
  induction props with
  | nil => intro init h; exact h
  | cons p ps ih =>
      intro init h
      unfold collectGroupNames at *
      rw [List.foldl_cons]
      exact ih _ (nodup_collectStep p h)

theorem insertOrdered_perm (cmp : String → String → Ordering) (x : String)
    (l : List String) : (insertOrdered cmp x l).Perm (x :: l) := by
  induction l with
  | nil => exact List.Perm.refl _
  | cons y ys ih =>
      unfold insertOrdered
      by_cases h : cmp x y = Ordering.gt
      · rw [if_pos h]
        exact (ih.cons y).trans (List.Perm.swap x y ys)
      · rw [if_neg h]

theorem sortBy_perm (cmp : String → String → Ordering) (l : List String) :
    (sortBy cmp l).Perm l := by
  induction l with
  | nil => exact List.Perm.refl _
  | cons x xs ih =>
      exact (insertOrdered_perm cmp x (sortBy cmp xs)).trans (ih.cons x)

theorem pairwise_insertOrdered (cmp : String → String → Ordering)
    (hswap : ∀ a b, cmp a b = (cmp b a).swap)
    (htrans : ∀ a b c, cmp a b ≠ Ordering.gt → cmp b c ≠ Ordering.gt →
      cmp a c ≠ Ordering.gt)
    (x : String) (l : List String)
    (h : l.Pairwise fun a b => cmp a b ≠ Ordering.gt) :
    (insertOrdered cmp x l).Pairwise fun a b => cmp a b ≠ Ordering.gt := by
  induction l with
  | nil => simp [insertOrdered]
  | cons y ys ih =>
      rw [List.pairwise_cons] at h
      unfold insertOrdered
      by_cases hxy : cmp x y = Ordering.gt
      · rw [if_pos hxy]
        rw [List.pairwise_cons]
        refine ⟨?_, ih h.2⟩
        intro b hb
        rcases List.mem_cons.mp ((insertOrdered_perm cmp x ys).mem_iff.mp hb) with rfl | hby
        · rw [hswap y b, hxy]
          simp [Ordering.swap]
        · exact h.1 b hby
      · rw [if_neg hxy]
        rw [List.pairwise_cons]
        refine ⟨?_, List.pairwise_cons.mpr h⟩
        intro b hb
        rcases List.mem_cons.mp hb with rfl | hby
        · exact hxy
        · exact htrans x y b hxy (h.1 b hby)

theorem pairwise_sortBy (cmp : String → String → Ordering)
    (hswap : ∀ a b, cmp a b = (cmp b a).swap)
    (htrans : ∀ a b c, cmp a b ≠ Ordering.gt → cmp b c ≠ Ordering.gt →
      cmp a c ≠ Ordering.gt)
    (l : List String) :
    (sortBy cmp l).Pairwise fun a b => cmp a b ≠ Ordering.gt := by
  induction l with
  | nil => simp [sortBy]
  | cons x xs ih => exact pairwise_insertOrdered cmp hswap htrans x _ ih

/-- Two sorted lists that are permutations of each other are equal, given
antisymmetry of the sorting relation on the elements of the first list. -/
theorem eq_of_perm_of_pairwise (le : String → String → Prop) :
    ∀ l₁ l₂ : List String, l₁.Perm l₂ → l₁.Pairwise le → l₂.Pairwise le →
      (∀ a ∈ l₁, ∀ b ∈ l₁, le a b → le b a → a = b) → l₁ = l₂ := by
  intro l₁
  induction l₁ with
  | nil =>
      intro l₂ hp _ _ _
      exact (List.Perm.eq_nil hp.symm).symm
  | cons a t₁ ih =>
      intro l₂ hp hs₁ hs₂ hanti
      cases l₂ with
      | nil => exact absurd (List.Perm.eq_nil hp) (by simp)
      | cons b t₂ =>
          have ha₂ : a ∈ b :: t₂ := hp.subset (List.mem_cons_self a t₁)
          have hb₁ : b ∈ a :: t₁ := hp.symm.subset (List.mem_cons_self b t₂)
          have hab : a = b := by
            by_cases heq : a = b
            · exact heq
            · have hbt₁ : b ∈ t₁ := by
                rcases List.mem_cons.mp hb₁ with h | h
                · exact absurd h.symm heq
                · exact h
              have hat₂ : a ∈ t₂ := by
                rcases List.mem_cons.mp ha₂ with h | h
                · exact absurd h heq
                · exact h
              have h1 : le a b := (List.pairwise_cons.mp hs₁).1 b hbt₁
              have h2 : le b a := (List.pairwise_cons.mp hs₂).1 a hat₂
              exact hanti a (List.mem_cons_self a t₁) b hb₁ h1 h2
          subst hab
          have hp' : t₁.Perm t₂ := hp.cons_inv
          have ht : t₁ = t₂ := by
            refine ih t₂ hp' (List.pairwise_cons.mp hs₁).2 (List.pairwise_cons.mp hs₂).2 ?_
            intro x hx y hy hxy hyx
            exact hanti x (List.mem_cons_of_mem a hx) y (List.mem_cons_of_mem a hy) hxy hyx
          rw [ht]

/-- Sorting two tie-free permutations of the same elements gives the same list. -/
theorem sortBy_eq_of_perm (cmp : String → String → Ordering)
    (hswap : ∀ a b, cmp a b = (cmp b a).swap)
    (htrans : ∀ a b c, cmp a b ≠ Ordering.gt → cmp b c ≠ Ordering.gt →
      cmp a c ≠ Ordering.gt)
    (l₁ l₂ : List String) (hperm : l₁.Perm l₂)
    (hanti : ∀ a ∈ l₁, ∀ b ∈ l₁, cmp a b = Ordering.eq → a = b) :
    sortBy cmp l₁ = sortBy cmp l₂ := by
  refine eq_of_perm_of_pairwise (fun a b => cmp a b ≠ Ordering.gt) _ _
    (((sortBy_perm cmp l₁).trans hperm).trans (sortBy_perm cmp l₂).symm)
    (pairwise_sortBy cmp hswap htrans l₁) (pairwise_sortBy cmp hswap htrans l₂) ?_
  intro a ha b hb h1 h2
  exact hanti a ((sortBy_perm cmp l₁).mem_iff.mp ha) b ((sortBy_perm cmp l₁).mem_iff.mp hb)
    (eq_of_notGt_notGt hswap h1 h2)

/-- Membership in a group node's child list, characterized from the source's
member-collection filter. -/
theorem mem_childIds_buildGroupNode (props sectionNames : List String) (g p : String) :
    p ∈ childIds (buildGroupNode props sectionNames g) ↔
      p ∈ props ∧ beforeFirstDot p = g ∧ p ∉ sectionNames := by
  unfold childIds buildGroupNode
  simp only [List.map_map]
  constructor
  · intro h
    rcases List.mem_map.mp h with ⟨q, hq, hqp⟩
    have hqp' : q = p := hqp
    subst hqp'
    have hq' : q ∈ groupProperties props sectionNames g :=
      (sortBy_perm localeCompare _).mem_iff.mp hq
    rcases List.mem_filter.mp hq' with ⟨hmem, hcond⟩
    simp only [decide_eq_true_eq] at hcond
    exact ⟨hmem, hcond.1, hcond.2⟩
  · rintro ⟨hmem, hg, hs⟩
    refine List.mem_map.mpr ⟨p, ?_, rfl⟩
    refine (sortBy_perm localeCompare _).mem_iff.mpr ?_
    refine List.mem_filter.mpr ⟨hmem, ?_⟩
    simp only [decide_eq_true_eq]
    exact ⟨hg, hs⟩

/-- C4: in the tree built by `initializeModel` (from a fresh group-name set),
every schema key containing a dot that is not a section name appears as a leaf
under exactly one group node — the group named by its first dot-segment — and
section-name keys appear in no group's child list. -/
theorem C4_dotted_key_in_unique_group (props sectionNames : List String) (p : String)
    (hmem : p ∈ props) (hdot : hasDot p = true) :
    (p ∉ sectionNames →
      ((initializeModel [] props sectionNames).2.countP
          (fun g => p ∈ childIds g) = 1 ∧
        ∀ g ∈ (initializeModel [] props sectionNames).2,
          p ∈ childIds g → g.id = beforeFirstDot p ++ "-id")) ∧
    (p ∈ sectionNames →
      ∀ g ∈ (initializeModel [] props sectionNames).2, p ∉ childIds g) := by
  have hne : p ≠ "" := hasDot_ne_empty hdot
  have hunfold : (initializeModel [] props sectionNames).2 =
      (sortBy localeCompare (collectGroupNames [] props)).map
        (buildGroupNode props sectionNames) := rfl
  have hnodup : (sortBy localeCompare (collectGroupNames [] props)).Nodup :=
    ((sortBy_perm localeCompare _).nodup_iff).mpr
      (nodup_collectGroupNames props [] List.nodup_nil)
  have hgmem : beforeFirstDot p ∈ sortBy localeCompare (collectGroupNames [] props) :=
    (sortBy_perm localeCompare _).mem_iff.mpr
      ((mem_collectGroupNames props [] _).mpr
        (Or.inr ⟨p, hmem, hne, hdot, substringToFirstDot_of_hasDot hdot⟩))
  constructor
  · intro hsec
    constructor
    · rw [hunfold, List.countP_map]
      have hcong : List.countP
          ((fun g => decide (p ∈ childIds g)) ∘ buildGroupNode props sectionNames)
          (sortBy localeCompare (collectGroupNames [] props)) =
          List.countP (fun x => x == beforeFirstDot p)
            (sortBy localeCompare (collectGroupNames [] props)) := by
        apply List.countP_congr
        intro x _
        simp only [Function.comp, decide_eq_true_eq, beq_iff_eq,
          mem_childIds_buildGroupNode]
        constructor
        · rintro ⟨_, hg, _⟩
          exact hg.symm
        · rintro rfl
          exact ⟨hmem, rfl, hsec⟩
      rw [hcong, ← List.count_eq_countP]
      exact List.count_eq_one_of_mem hnodup hgmem
    · intro g hg hpin
      rw [hunfold] at hg
      rcases List.mem_map.mp hg with ⟨x, _, rfl⟩
      rcases (mem_childIds_buildGroupNode props sectionNames x p).mp hpin with ⟨_, hgx, _⟩
      rw [← hgx]
      rfl
  · intro hsec g hg hpin
    rw [hunfold] at hg
    rcases List.mem_map.mp hg with ⟨x, _, rfl⟩
    rcases (mem_childIds_buildGroupNode props sectionNames x p).mp hpin with ⟨_, _, hns⟩
    exact hns hsec

/-- Witness for C4: `editor.fontSize` sits under exactly the `editor` group;
the section-name key `launch.x` is listed under no group. -/
theorem C4_dotted_key_in_unique_group_witness :
    ((initializeModel [] ["editor.fontSize", "files.exclude", "launch.x"]
          ["launch.x"]).2.countP (fun g => "editor.fontSize" ∈ childIds g) = 1 ∧
      ∀ g ∈ (initializeModel [] ["editor.fontSize", "files.exclude", "launch.x"]
          ["launch.x"]).2,
        "editor.fontSize" ∈ childIds g →
          g.id = beforeFirstDot "editor.fontSize" ++ "-id") ∧
    (∀ g ∈ (initializeModel [] ["editor.fontSize", "files.exclude", "launch.x"]
        ["launch.x"]).2, "launch.x" ∉ childIds g) :=
  ⟨(C4_dotted_key_in_unique_group ["editor.fontSize", "files.exclude", "launch.x"]
      ["launch.x"] "editor.fontSize" (by decide) (by decide)).1 (by decide),
   (C4_dotted_key_in_unique_group ["editor.fontSize", "files.exclude", "launch.x"]
      ["launch.x"] "launch.x" (by decide) (by decide)).2 (by decide)⟩

/-- C5: every group node's label is the group name with its first character
capitalized, followed by the member count in parentheses; the example schema
with two `editor` keys and one `files` key yields exactly `Editor (2)` then
`Files (1)`. -/
theorem C5_group_label_and_example (props sectionNames : List String) :
    (∀ g ∈ (initializeModel [] props sectionNames).2, ∃ raw,
        g.id = raw ++ "-id" ∧ g.name = groupLabel raw g.children.length) ∧
    ((initializeModel [] ["editor.fontSize", "editor.tabSize", "files.exclude"]
        []).2.map (fun g => g.name) = ["Editor (2)", "Files (1)"]) ∧
    ((initializeModel [] ["editor.fontSize", "editor.tabSize", "files.exclude"]
        []).2.map (fun g => g.id) = ["editor-id", "files-id"]) := by
  refine ⟨?_, by decide, by decide⟩
  intro g hg
  have hunfold : (initializeModel [] props sectionNames).2 =
      (sortBy localeCompare (collectGroupNames [] props)).map
        (buildGroupNode props sectionNames) := rfl
  rw [hunfold] at hg
  rcases List.mem_map.mp hg with ⟨x, _, rfl⟩
  refine ⟨x, rfl, ?_⟩
  show groupLabel x (groupProperties props sectionNames x).length = _
  have hlen : (buildGroupNode props sectionNames x).children.length =
      (groupProperties props sectionNames x).length := by
    show ((sortBy localeCompare (groupProperties props sectionNames x)).map _).length = _
    rw [List.length_map, (sortBy_perm localeCompare _).length_eq]
  rw [hlen]

/-- Witness for C5: the `editor` group node of the example schema. -/
theorem C5_group_label_and_example_witness :
    ∃ raw,
      (buildGroupNode ["editor.fontSize", "editor.tabSize", "files.exclude"] []
          "editor").id = raw ++ "-id" ∧
      (buildGroupNode ["editor.fontSize", "editor.tabSize", "files.exclude"] []
          "editor").name =
        groupLabel raw
          (buildGroupNode ["editor.fontSize", "editor.tabSize", "files.exclude"] []
              "editor").children.length :=
  (C5_group_label_and_example ["editor.fontSize", "editor.tabSize", "files.exclude"]
      []).1
    (buildGroupNode ["editor.fontSize", "editor.tabSize", "files.exclude"] [] "editor")
    (by decide)

/-- C6 fails on the code: the `preferencesGroupNames` set field is never
cleared, so a rebuild after a schema change keeps groups of the previous
schema.  Rebuilding with schema `old.x` and then with schema `new.y` yields
the groups `new-id` and `old-id`, although no key of the current schema has
first segment `old` and a fresh build of `new.y` yields only `new-id`. -/
theorem C6_stale_group_survives_rebuild :
    ((initializeModel [] ["old.x"] []).2.map (fun g => g.id) = ["old-id"]) ∧
    ((initializeModel (initializeModel [] ["old.x"] []).1 ["new.y"] []).2.map
        (fun g => g.id) = ["new-id", "old-id"]) ∧
    ((initializeModel [] ["new.y"] []).2.map (fun g => g.id) = ["new-id"]) ∧
    (∀ q ∈ (["new.y"] : List String), beforeFirstDot q ≠ "old") :=
  ⟨by decide, by decide, by decide, by decide⟩

/-- C9 fails as stated: group names that differ only in ignored punctuation
compare equal, and the stable sort then keeps Set-insertion order, which
follows the schema enumeration order.  The two permutations of the schema
`a-b.x`, `ab.y` produce the two different group orders. -/
theorem C9_order_depends_on_enumeration :
    localeCompare "a-b" "ab" = Ordering.eq ∧
    (["a-b.x", "ab.y"] : List String).Perm ["ab.y", "a-b.x"] ∧
    ((initializeModel [] ["a-b.x", "ab.y"] []).2.map (fun g => g.id) =
      ["a-b-id", "ab-id"]) ∧
    ((initializeModel [] ["ab.y", "a-b.x"] []).2.map (fun g => g.id) =
      ["ab-id", "a-b-id"]) :=
  ⟨by decide, by decide, by decide, by decide⟩

/-- C9 amended: groups and per-group properties are ordered by the same
comparison, and the resulting tree is permutation-invariant provided no two
distinct group names and no two distinct schema keys compare equal under it
(i.e. none differ only in ignored punctuation). -/
theorem C9_order_permutation_invariant_without_ties
    (props1 props2 sectionNames : List String)
    (hperm : props1.Perm props2)
    (hg : ∀ a ∈ collectGroupNames [] props1, ∀ b ∈ collectGroupNames [] props1,
      localeCompare a b = Ordering.eq → a = b)
    (hp : ∀ a ∈ props1, ∀ b ∈ props1, localeCompare a b = Ordering.eq → a = b) :
    (initializeModel [] props1 sectionNames).2 =
      (initializeModel [] props2 sectionNames).2 := by
  have htrans : ∀ a b c : String, localeCompare a b ≠ Ordering.gt →
      localeCompare b c ≠ Ordering.gt → localeCompare a c ≠ Ordering.gt :=
    fun _ _ _ h1 h2 => localeCompare_trans_notGt h1 h2
  have hmemiff : ∀ y, y ∈ collectGroupNames [] props1 ↔ y ∈ collectGroupNames [] props2 := by
    intro y
    rw [mem_collectGroupNames, mem_collectGroupNames]
    constructor
    · rintro (h | ⟨p, hp', hc⟩)
      · exact Or.inl h
      · exact Or.inr ⟨p, hperm.subset hp', hc⟩
    · rintro (h | ⟨p, hp', hc⟩)
      · exact Or.inl h
      · exact Or.inr ⟨p, hperm.symm.subset hp', hc⟩
  have hpermg : (collectGroupNames [] props1).Perm (collectGroupNames [] props2) :=
    (List.perm_ext_iff_of_nodup (nodup_collectGroupNames props1 [] List.nodup_nil)
      (nodup_collectGroupNames props2 [] List.nodup_nil)).mpr hmemiff
  have hsorteq : sortBy localeCompare (collectGroupNames [] props1) =
      sortBy localeCompare (collectGroupNames [] props2) :=
    sortBy_eq_of_perm localeCompare localeCompare_swap htrans _ _ hpermg hg
  have hbuild : ∀ g, buildGroupNode props1 sectionNames g =
      buildGroupNode props2 sectionNames g := by
    intro g
    have hfperm : (groupProperties props1 sectionNames g).Perm
        (groupProperties props2 sectionNames g) := hperm.filter _
    have hfeq : sortBy localeCompare (groupProperties props1 sectionNames g) =
        sortBy localeCompare (groupProperties props2 sectionNames g) := by
      refine sortBy_eq_of_perm localeCompare localeCompare_swap htrans _ _ hfperm ?_
      intro a ha b hb
      exact hp a (List.mem_of_mem_filter ha) b (List.mem_of_mem_filter hb)
    unfold buildGroupNode
    simp only []
    rw [hfperm.length_eq, hfeq]
  show (sortBy localeCompare (collectGroupNames [] props1)).map
      (buildGroupNode props1 sectionNames) =
    (sortBy localeCompare (collectGroupNames [] props2)).map
      (buildGroupNode props2 sectionNames)
  rw [hsorteq]
  exact List.map_congr_left fun a _ => hbuild a

/-- Witness for the amended C9: a tie-free two-key schema, permuted. -/
theorem C9_order_permutation_invariant_without_ties_witness :
    (initializeModel [] ["editor.fontSize", "files.exclude"] []).2 =
      (initializeModel [] ["files.exclude", "editor.fontSize"] []).2 :=
  C9_order_permutation_invariant_without_ties
    ["editor.fontSize", "files.exclude"] ["files.exclude", "editor.fontSize"] []
    (by decide) (by decide) (by decide)

end TheiaPreferences
